import Mathlib

/-!
Verification development for the `vrs` release-versioning tool
(source: `vrs/vrs.go`).

The Go source is shallowly embedded as follows.

* Go strings are Lean `String` (contents manipulated through `String.data`,
  a `List Char`; all sync/version payloads in this program are ASCII, so
  byte-level and rune-level processing coincide).
* The filesystem is an association list `path ↦ content`; `os.Stat` +
  `os.ReadFile` of a present file always succeeds in the model, and
  `os.WriteFile` always succeeds.  The distinguished not-found branch of
  `ParseVersioonConfig` is therefore taken exactly when the path is absent.
* Every external side effect (file write, `git` invocation) is recorded in
  an ordered event log, so temporal claims become statements about the log.
* `git` commands are driven by an outcome oracle (`List Bool`, consumed one
  entry per invocation, defaulting to success), mirroring `exec.Cmd.Run`
  returning a nil or non-nil error.
* The YAML codec (`gopkg.in/yaml.v2`) and the regexp engine (`regexp`) are
  external collaborators; they are modelled as explicit capability records
  passed to the operations, exactly at their interface boundary.
  `yaml.Marshal` is modelled as total (it cannot fail on these struct types).
* Go `int` is 64-bit (as on all mainstream Go platforms); `strconv.Atoi`
  range-checks into `[-2^63, 2^63-1]` and `minorVersion+1` wraps modulo
  `2^64`, which `int64wrap` makes explicit.
* Go panics (index out of range on `versionParts[1]` / `versionParts[2]`)
  are a distinct `Outcome.crashed` result, not an error return.
-/

deriving instance DecidableEq for Except

/-! ## Pure string helpers (models of `strings`, `strconv`, `fmt` calls) -/

/-- Model of `strings.Split(s, ".")` on the underlying character list:
`[]` yields `[[]]`, and every `'.'` starts a new field, exactly as Go's
`strings.Split` with a one-byte separator. -/
def splitDotChars : List Char → List (List Char)
  | [] => [[]]
  | c :: rest =>
    let r := splitDotChars rest
    if c = '.' then [] :: r
    else
      match r with
      | [] => [[c]]
      | h :: t => (c :: h) :: t

/-- Model of `strings.Split(oldVersion, ".")` as used at `vrs.go:189`. -/
def goSplit (s : String) : List String :=
  (splitDotChars s.data).map (fun cs => String.mk cs)

/-- Decimal digit test/value, as used by `strconv.Atoi` for base 10. -/
def digitVal (c : Char) : Option Nat :=
  if 48 ≤ c.toNat ∧ c.toNat ≤ 57 then some (c.toNat - 48) else none

/-- Accumulate the decimal value of a digit string; `none` on any
non-digit character. -/
def digitsValAux (acc : Nat) : List Char → Option Nat
  | [] => some acc
  | c :: cs =>
    match digitVal c with
    | none => none
    | some d => digitsValAux (acc * 10 + d) cs

/-- Decimal value of a non-empty all-digit string, else `none`. -/
def digitsVal (cs : List Char) : Option Nat :=
  match cs with
  | [] => none
  | _ => digitsValAux 0 cs

/-- Digit-and-range phase of `strconv.Atoi` (= `strconv.ParseInt` base 10,
bit size of `int`, i.e. 64): the magnitude is parsed and the signed value
must fit `int64`, otherwise Go reports `ErrRange` (an error). -/
def atoiCore (neg : Bool) (cs : List Char) : Except Unit Int :=
  match digitsVal cs with
  | none => Except.error ()
  | some m =>
    let v : Int := if neg then -(m : Int) else (m : Int)
    if -(2 ^ 63) ≤ v ∧ v ≤ 2 ^ 63 - 1 then Except.ok v else Except.error ()

/-- Model of `strconv.Atoi` (`vrs.go:190`): optional leading sign, at least
one digit, all digits, value within the 64-bit `int` range. -/
def goAtoi (s : String) : Except Unit Int :=
  match s.data with
  | [] => Except.error ()
  | c :: cs =>
    if c = '+' then atoiCore false cs
    else if c = '-' then atoiCore true cs
    else atoiCore false (c :: cs)

/-- Two's-complement wrap of Go 64-bit `int` arithmetic. -/
def int64wrap (n : Int) : Int :=
  (n + 2 ^ 63) % 2 ^ 64 - 2 ^ 63

/-- Decimal digits of a natural number (fuel-based so that the kernel can
evaluate it; 30 units of fuel cover far more than any 64-bit value). -/
def natDigitsAux : Nat → Nat → List Char
  | 0, _ => []
  | f + 1, n =>
    if n < 10 then [Char.ofNat (48 + n)]
    else natDigitsAux f (n / 10) ++ [Char.ofNat (48 + n % 10)]

/-- Model of `fmt.Sprintf("%d", n)` for a Go `int`: minus sign for
negatives, decimal digits. -/
def goItoa (n : Int) : String :=
  if n < 0 then "-" ++ String.mk (natDigitsAux 30 n.natAbs)
  else String.mk (natDigitsAux 30 n.toNat)

/-- Boolean "is a prefix of" on character lists (model of the comparison
inside `strings.Index`/`strings.Replace`). -/
def leadsWith : List Char → List Char → Bool
  | [], _ => true
  | _ :: _, [] => false
  | a :: as, b :: bs => a == b && leadsWith as bs

/-- Left-to-right scan of `strings.Replace(s, old, new, -1)` for non-empty
`old`: at each position, either the leftmost occurrence of `old` starts
here (emit `new`, skip `old.length` characters) or the character is copied.
The fuel starts at the length of `s`, which the scan never exhausts early
because every step consumes at least one character. -/
def replaceAllAux (new old : List Char) : Nat → List Char → List Char
  | 0, s => s
  | _ + 1, [] => []
  | fuel + 1, c :: cs =>
    if leadsWith old (c :: cs) then new ++ replaceAllAux new old fuel ((c :: cs).drop old.length)
    else c :: replaceAllAux new old fuel cs

/-- `strings.Replace` with empty `old`: `new` is inserted before every
character and at the end. -/
def emptySepJoin (new : List Char) : List Char → List Char
  | [] => new
  | c :: cs => new ++ c :: emptySepJoin new cs

/-- Model of `strings.ReplaceAll(s, old, new)` (`vrs.go:244`). -/
def goReplaceAll (s old new : String) : String :=
  if old.data = [] then String.mk (emptySepJoin new.data s.data)
  else String.mk (replaceAllAux new.data old.data s.data.length s.data)

/-- Model of `path.Join(a, b)` for the already-clean paths this program
builds (base directory plus relative file name). -/
def pathJoin (a b : String) : String :=
  if a = "" then b else a ++ "/" ++ b

/-! ## Data model (`vrs.go:17-35`) -/

/-- `SyncFile` (`vrs.go:27-30`). -/
structure SyncFile where
  name : String
  pattern : String
deriving DecidableEq

/-- `Sync` (`vrs.go:23-25`). -/
structure Sync where
  files : List SyncFile
deriving DecidableEq

/-- `Profile` (`vrs.go:32-35`); the Go `*Sync` field is an `Option`. -/
structure Profile where
  name : String
  sync : Option Sync
deriving DecidableEq

/-- `VrsConfig` (`vrs.go:17-21`); nil pointer/slice become `none`/`[]`. -/
structure VrsConfig where
  version : String
  sync : Option Sync
  profiles : List Profile
deriving DecidableEq

/-! ## Effects: errors, events, world state -/

/-- The error values the operations can return: the `NoVersioonFileFound`
sentinel (`vrs.go:37`), `yaml.Unmarshal` failures, `os.ReadFile` failures
(file absent), `strconv.Atoi` failures, `regexp.Compile` failures, and
non-zero `git` exits (identified by the argument list of the command). -/
inductive VrsError where
  | noVersioonFileFound
  | yamlError (msg : String)
  | readError (path : String)
  | atoiError
  | regexpCompileError
  | gitError (args : List String)
deriving DecidableEq

/-- An externally observable effect: a full-file write, or an invocation
of the `git` binary (with working directory, arguments after `git`, and
whether the command exited successfully). -/
inductive Event where
  | write (path : String) (content : String)
  | git (dir : String) (args : List String) (ok : Bool)
deriving DecidableEq

/-- World state threaded through the operations: the filesystem (an
association list `path ↦ content`), the ordered log of effects so far, and
the oracle deciding the exit status of the coming `git` invocations (one
`Bool` consumed per invocation; exhausted oracle means success). -/
structure World where
  fs : List (String × String)
  log : List Event
  gitOutcomes : List Bool
deriving DecidableEq

/-- Filesystem lookup. -/
def fsGet : List (String × String) → String → Option String
  | [], _ => none
  | (q, d) :: rest, p => if q = p then some d else fsGet rest p

/-- Filesystem update (overwrite or create). -/
def fsSet : List (String × String) → String → String → List (String × String)
  | [], p, c => [(p, c)]
  | (q, d) :: rest, p, c => if q = p then (p, c) :: rest else (q, d) :: fsSet rest p c

/-- `os.ReadFile`: succeeds exactly on present files. -/
def readFile (w : World) (p : String) : Option String :=
  fsGet w.fs p

/-- `os.WriteFile` (mode 0600): updates the filesystem and logs the write. -/
def writeFile (w : World) (p : String) (content : String) : World :=
  { w with fs := fsSet w.fs p content, log := w.log ++ [Event.write p content] }

/-- Run one `git` command (`exec.Command("git", args...).Run()` with
`cmd.Dir = dir`): the oracle decides the exit status, the invocation is
logged either way. -/
def runGit (dir : String) (args : List String) (w : World) : Bool × World :=
  match w.gitOutcomes with
  | [] => (true, { w with log := w.log ++ [Event.git dir args true] })
  | b :: rest => (b, { w with log := w.log ++ [Event.git dir args b], gitOutcomes := rest })

/-- The YAML codec capability (`gopkg.in/yaml.v2`), at its interface
boundary: `Marshal` is total on these struct types, `Unmarshal` may fail
with a message. -/
structure Yaml where
  marshal : VrsConfig → String
  unmarshal : String → Except String VrsConfig

/-- The regexp capability (`regexp`), at its interface boundary:
`Compile` either fails or yields a compiled value of some type `R`, and
`ReplaceAllString` rewrites a string using a compiled value. -/
structure RegexpEngine (R : Type) where
  compile : String → Except String R
  replaceAllString : R → String → String → String

/-! ## The program (`vrs.go:37-309`) -/

/-- `VrsConfigFileName` (`vrs.go:15`). -/
def VrsConfigFileName : String := "vrs.yml"

/-- `ParseVersioonConfig` (`vrs.go:39-59`): stat the config path, return
the `NoVersioonFileFound` sentinel when absent, otherwise read and
unmarshal. -/
def ParseVersioonConfig (yaml : Yaml) (basePath : String) (w : World) :
    Except VrsError VrsConfig :=
  let versioonConfigPath := pathJoin basePath VrsConfigFileName
  match readFile w versioonConfigPath with
  | none => Except.error VrsError.noVersioonFileFound
  | some yml =>
    match yaml.unmarshal yml with
    | Except.error m => Except.error (VrsError.yamlError m)
    | Except.ok config => Except.ok config

/-- `(*VrsConfig).Write` (`vrs.go:61-71`): marshal and write the whole
document. -/
def VrsConfig.Write (yaml : Yaml) (config : VrsConfig) (basePath : String) (w : World) : World :=
  writeFile w (pathJoin basePath VrsConfigFileName) (yaml.marshal config)

/-- `(*VrsConfig).WriteAndCommit` (`vrs.go:73-120`): write the config,
then (in commit mode) `git add`, `git commit -m msg`, `git tag v<version>`,
and (in push mode) `git push`, `git push --tags`; the first failing command
aborts the rest. -/
def VrsConfig.WriteAndCommit (yaml : Yaml) (config : VrsConfig) (baseDir : String)
    (commit push : Bool) (commitMessage : String) (w : World) :
    Except VrsError Unit × World :=
  let w1 := VrsConfig.Write yaml config baseDir w
  if commit then
    match runGit baseDir ["add", VrsConfigFileName] w1 with
    | (false, w2) => (Except.error (VrsError.gitError ["add", VrsConfigFileName]), w2)
    | (true, w2) =>
      match runGit baseDir ["commit", "-m", commitMessage] w2 with
      | (false, w3) => (Except.error (VrsError.gitError ["commit", "-m", commitMessage]), w3)
      | (true, w3) =>
        match runGit baseDir ["tag", "v" ++ config.version] w3 with
        | (false, w4) => (Except.error (VrsError.gitError ["tag", "v" ++ config.version]), w4)
        | (true, w4) =>
          if push then
            match runGit baseDir ["push"] w4 with
            | (false, w5) => (Except.error (VrsError.gitError ["push"]), w5)
            | (true, w5) =>
              match runGit baseDir ["push", "--tags"] w5 with
              | (false, w6) => (Except.error (VrsError.gitError ["push", "--tags"]), w6)
              | (true, w6) => (Except.ok (), w6)
          else (Except.ok (), w4)
  else (Except.ok (), w1)

/-- `InitOptions` (`vrs.go:122-126`).  The nil-options default path
(`NewDefaultInitOptions`, which consults `os.Getwd`) is CLI plumbing and
is not modelled: callers pass explicit options. -/
structure InitOptions where
  basedir : String
  gitCommit : Bool
  gitPush : Bool
deriving DecidableEq

/-- `Init` (`vrs.go:140-153`): unconditionally write-and-commit a fresh
config with version `"0.0.0"`. -/
def Init (yaml : Yaml) (options : InitOptions) (w : World) : Except VrsError Unit × World :=
  VrsConfig.WriteAndCommit yaml { version := "0.0.0", sync := none, profiles := [] }
    options.basedir options.gitCommit options.gitPush "Initialized versioon file." w

/-- `BumpOptions` (`vrs.go:155-160`); as for `Init`, the nil-options
default path is not modelled. -/
structure BumpOptions where
  basedir : String
  gitCommit : Bool
  gitPush : Bool
  activeProfiles : List String
deriving DecidableEq

/-- Result of the version computation at `vrs.go:188-194`. -/
inductive VersionResult where
  | ok (newVersion : String)
  | parseFail
  | indexPanic
deriving DecidableEq

/-- `vrs.go:188-194`: split the version on `"."`, `strconv.Atoi` the
second part, rebuild `parts[0] + "." + (minor+1) + "." + parts[2]`.
The unchecked index accesses `versionParts[1]` (before the `Atoi` call)
and `versionParts[2]` (after the error check, inside the `Sprintf`
arguments) are Go runtime panics when out of range, modelled as
`indexPanic`. -/
def computeNewVersion (oldVersion : String) : VersionResult :=
  let versionParts := goSplit oldVersion
  if h1 : 1 < versionParts.length then
    match goAtoi (versionParts.get ⟨1, h1⟩) with
    | Except.error _ => VersionResult.parseFail
    | Except.ok minorVersion =>
      if h2 : 2 < versionParts.length then
        VersionResult.ok
          (versionParts.get ⟨0, by omega⟩ ++ "." ++ goItoa (int64wrap (minorVersion + 1)) ++ "."
            ++ versionParts.get ⟨2, h2⟩)
      else VersionResult.indexPanic
  else VersionResult.indexPanic

/-- `bumpInFile` (`vrs.go:236-275`): read the target, rewrite it (literal
mode when `oldVersion` is non-empty, else compile the pattern and replace
its matches), write it back, then in commit mode `git add` + `git commit
-m "Bumped version."`. -/
def bumpInFile {R : Type} (eng : RegexpEngine R) (baseDir : String) (gitCommit : Bool)
    (file oldVersion oldExpression newVersion : String) (w : World) :
    Except VrsError Unit × World :=
  let filePath := pathJoin baseDir file
  match readFile w filePath with
  | none => (Except.error (VrsError.readError filePath), w)
  | some originalBytes =>
    let bumped : Except VrsError String :=
      if oldVersion ≠ "" then Except.ok (goReplaceAll originalBytes oldVersion newVersion)
      else
        match eng.compile oldExpression with
        | Except.error _ => Except.error VrsError.regexpCompileError
        | Except.ok r => Except.ok (eng.replaceAllString r originalBytes newVersion)
    match bumped with
    | Except.error e => (Except.error e, w)
    | Except.ok bumpedFile =>
      let w1 := writeFile w filePath bumpedFile
      if gitCommit then
        match runGit baseDir ["add", file] w1 with
        | (false, w2) => (Except.error (VrsError.gitError ["add", file]), w2)
        | (true, w2) =>
          match runGit baseDir ["commit", "-m", "Bumped version."] w2 with
          | (false, w3) => (Except.error (VrsError.gitError ["commit", "-m", "Bumped version."]), w3)
          | (true, w3) => (Except.ok (), w3)
      else (Except.ok (), w1)

/-- The per-`SyncFile` loop body of `Bump` (`vrs.go:201-210` and
`vrs.go:217-226`, which are textually identical): literal mode when the
file has no pattern, else pattern mode; the first failure aborts. -/
def syncFiles {R : Type} (eng : RegexpEngine R) (baseDir : String) (gitCommit : Bool)
    (oldVersion newVersion : String) : List SyncFile → World → Except VrsError Unit × World
  | [], w => (Except.ok (), w)
  | file :: rest, w =>
    let step :=
      if file.pattern = "" then
        bumpInFile eng baseDir gitCommit file.name oldVersion "" newVersion w
      else
        bumpInFile eng baseDir gitCommit file.name "" file.pattern newVersion w
    match step with
    | (Except.error e, w1) => (Except.error e, w1)
    | (Except.ok _, w1) => syncFiles eng baseDir gitCommit oldVersion newVersion rest w1

/-- The profile loop of `Bump` (`vrs.go:213-231`): for each profile in
config order, the inner loop over `ActiveProfiles` breaks at the first
name match, so a profile's files run (at most once) exactly when its name
occurs in the active list; processing then continues with the next
profile. -/
def profilesLoop {R : Type} (eng : RegexpEngine R) (baseDir : String) (gitCommit : Bool)
    (activeProfiles : List String) (oldVersion newVersion : String) :
    List Profile → World → Except VrsError Unit × World
  | [], w => (Except.ok (), w)
  | p :: ps, w =>
    if activeProfiles.contains p.name then
      match p.sync with
      | some s =>
        match syncFiles eng baseDir gitCommit oldVersion newVersion s.files w with
        | (Except.error e, w1) => (Except.error e, w1)
        | (Except.ok _, w1) =>
          profilesLoop eng baseDir gitCommit activeProfiles oldVersion newVersion ps w1
      | none => profilesLoop eng baseDir gitCommit activeProfiles oldVersion newVersion ps w
    else profilesLoop eng baseDir gitCommit activeProfiles oldVersion newVersion ps w

/-- Control outcome of `Bump`: normal return, error return, or a Go
runtime panic (which unwinds without a return value). -/
inductive Outcome where
  | ok
  | err (e : VrsError)
  | crashed (msg : String)
deriving DecidableEq

/-- `Bump` (`vrs.go:174-234`): load the config, compute the new version,
write-and-commit the config with message `"Version bump."`, then process
the global sync files and the active profiles' sync files. -/
def Bump {R : Type} (yaml : Yaml) (eng : RegexpEngine R) (options : BumpOptions) (w : World) :
    Outcome × World :=
  match ParseVersioonConfig yaml options.basedir w with
  | Except.error e => (Outcome.err e, w)
  | Except.ok config =>
    let oldVersion := config.version
    match computeNewVersion oldVersion with
    | VersionResult.indexPanic => (Outcome.crashed "index out of range", w)
    | VersionResult.parseFail => (Outcome.err VrsError.atoiError, w)
    | VersionResult.ok newVersion =>
      let config1 := { config with version := newVersion }
      match VrsConfig.WriteAndCommit yaml config1 options.basedir options.gitCommit
          options.gitPush "Version bump." w with
      | (Except.error e, w1) => (Outcome.err e, w1)
      | (Except.ok _, w1) =>
        let globalStep :=
          match config1.sync with
          | some s =>
            syncFiles eng options.basedir options.gitCommit oldVersion config1.version s.files w1
          | none => (Except.ok (), w1)
        match globalStep with
        | (Except.error e, w2) => (Outcome.err e, w2)
        | (Except.ok _, w2) =>
          match profilesLoop eng options.basedir options.gitCommit options.activeProfiles
              oldVersion config1.version config1.profiles w2 with
          | (Except.error e, w3) => (Outcome.err e, w3)
          | (Except.ok _, w3) => (Outcome.ok, w3)

/-- `ReadCurrentOptions` (`vrs.go:277-281`). -/
structure ReadCurrentOptions where
  basedir : String
  gitCommit : Bool
  gitPush : Bool
deriving DecidableEq

/-- `ReadCurrentVersion` (`vrs.go:295-309`): load the config and return
its version field. -/
def ReadCurrentVersion (yaml : Yaml) (options : ReadCurrentOptions) (w : World) :
    Except VrsError String :=
  match ParseVersioonConfig yaml options.basedir w with
  | Except.error e => Except.error e
  | Except.ok config => Except.ok config.version

/-! ## Specification-side definitions

These follow the wording of the specification (event shapes for the
commit sequences, the planned sync order, and the split-and-join reading
of "replace every occurrence"), to be compared with what the embedded
program actually does. -/

/-- The event sequence the spec prescribes for a successful
write-and-commit of the config: write the file, stage it, commit with the
given message, tag, and optionally push commits then tags. -/
def commitSeqEvents (dir msg tagName yml : String) (push : Bool) : List Event :=
  [Event.write (pathJoin dir VrsConfigFileName) yml,
   Event.git dir ["add", VrsConfigFileName] true,
   Event.git dir ["commit", "-m", msg] true,
   Event.git dir ["tag", tagName] true] ++
  (if push then [Event.git dir ["push"] true, Event.git dir ["push", "--tags"] true] else [])

/-- The event sequence the spec prescribes for one synced file: write the
rewritten content, then (in commit mode) stage that one file and commit it
immediately with message "Bumped version.". -/
def syncFileEvents (dir name content : String) (commit : Bool) : List Event :=
  Event.write (pathJoin dir name) content ::
  (if commit then
    [Event.git dir ["add", name] true, Event.git dir ["commit", "-m", "Bumped version."] true]
   else [])

/-- The paths of the file writes in an event list, in order. -/
def writePaths : List Event → List String
  | [] => []
  | Event.write p _ :: es => p :: writePaths es
  | Event.git _ _ _ :: es => writePaths es

/-- The global sync files of a config (empty when `sync` is nil). -/
def globalFiles (c : VrsConfig) : List SyncFile :=
  match c.sync with
  | some s => s.files
  | none => []

/-- The sync files of one profile (empty when its `sync` is nil). -/
def profileFiles (p : Profile) : List SyncFile :=
  match p.sync with
  | some s => s.files
  | none => []

/-- Spec wording of the sync-processing order: first every file of the
global sync spec, then, for each profile in config order whose name
appears in the active-profile list, every file of that profile's sync. -/
def specSyncOrder (c : VrsConfig) (active : List String) : List SyncFile :=
  globalFiles c ++ (c.profiles.filter (fun p => active.contains p.name)).flatMap profileFiles

/-- Spec wording of literal replacement, part 1: split the content at each
leftmost non-overlapping occurrence of `old` (same scan as
`replaceAllAux`, but keeping the pieces between occurrences). -/
def occSplitAux (old : List Char) : Nat → List Char → List (List Char)
  | 0, s => [s]
  | _ + 1, [] => [[]]
  | fuel + 1, c :: cs =>
    if leadsWith old (c :: cs) then [] :: occSplitAux old fuel ((c :: cs).drop old.length)
    else
      match occSplitAux old fuel cs with
      | [] => [[c]]
      | h :: t => (c :: h) :: t

/-- Spec wording of literal replacement, part 2: interleave the unchanged
pieces with the replacement. -/
def joinWith (sep : List Char) : List (List Char) → List Char
  | [] => []
  | [x] => x
  | x :: xs => x ++ sep ++ joinWith sep xs

/-- Does `sub` occur as a contiguous substring of `s`? -/
def containsSub (sub : List Char) : List Char → Bool
  | [] => leadsWith sub []
  | c :: cs => leadsWith sub (c :: cs) || containsSub sub cs

/-! ## Concrete collaborator instances (used by the witnesses) -/

/-- A concrete YAML codec storing only the version string: `marshal` emits
the version, `unmarshal` reads the whole document back as the version.
It round-trips every config whose `sync` and `profiles` are empty. -/
def simpleYaml : Yaml where
  marshal := fun c => c.version
  unmarshal := fun s => Except.ok { version := s, sync := none, profiles := [] }

/-- A config with a global sync file and three profiles (two sharing the
name "dev"), used to exercise the sync-processing order. -/
def bigCfg : VrsConfig where
  version := "0.1.0"
  sync := some { files := [{ name := "README.md", pattern := "" }] }
  profiles :=
    [{ name := "dev", sync := some { files := [{ name := "a.txt", pattern := "" }] } },
     { name := "prod", sync := some { files := [{ name := "p.txt", pattern := "" }] } },
     { name := "dev", sync := some { files := [{ name := "b.txt", pattern := "" }] } }]

/-- A concrete YAML codec whose `unmarshal` always yields `bigCfg`. -/
def fixedYaml : Yaml where
  marshal := fun c => c.version
  unmarshal := fun _ => Except.ok bigCfg

/-- A concrete regexp engine for the witnesses: a pattern compiles to
itself unless it is the ill-formed `"("` (which, like Go's
`regexp.Compile`, is a missing-closing-parenthesis error), and a compiled
pattern replaces its literal occurrences. -/
def litEngine : RegexpEngine String where
  compile := fun p => if p = "(" then Except.error "missing closing )" else Except.ok p
  replaceAllString := fun r s repl => goReplaceAll s r repl

/-! ## Lemmas about the world primitives -/

theorem fsGet_fsSet_self (fs : List (String × String)) (p c : String) :
    fsGet (fsSet fs p c) p = some c := by
  induction fs with
  | nil => simp [fsSet, fsGet]
  | cons hd tl ih =>
    obtain ⟨q, d⟩ := hd
    by_cases h : q = p
    · simp [fsSet, fsGet, h]
    · simp [fsSet, fsGet, h, ih]

theorem runGit_spec {d : String} {a : List String} {w : World} {ok : Bool} {w' : World}
    (H : runGit d a w = (ok, w')) :
    w'.fs = w.fs ∧ w'.log = w.log ++ [Event.git d a ok] := by
  unfold runGit at H
  split at H <;>
  · injection H with h1 h2
    subst h1
    subst h2
    exact ⟨rfl, rfl⟩

theorem writePaths_append (a b : List Event) :
    writePaths (a ++ b) = writePaths a ++ writePaths b := by
  induction a with
  | nil => rfl
  | cons e es ih => cases e <;> simp [writePaths, ih]

theorem writePaths_syncFileEvents (dir name c : String) (commit : Bool) :
    writePaths (syncFileEvents dir name c commit) = [pathJoin dir name] := by
  cases commit <;> rfl

theorem writePaths_commitSeqEvents (dir msg tagName yml : String) (push : Bool) :
    writePaths (commitSeqEvents dir msg tagName yml push) = [pathJoin dir VrsConfigFileName] := by
  cases push <;> rfl

theorem writePaths_blocks (dir : String) (commit : Bool) (ps : List (String × String)) :
    writePaths ((ps.map (fun pc => syncFileEvents dir pc.1 pc.2 commit)).flatten) =
      ps.map (fun pc => pathJoin dir pc.1) := by
  induction ps with
  | nil => rfl
  | cons p ps ih => simp [writePaths_append, writePaths_syncFileEvents, ih]

/-! ## Shape of a successful write-and-commit -/

theorem WriteAndCommit_ok_spec {yaml : Yaml} {config : VrsConfig} {dir : String} {push : Bool}
    {msg : String} {w w' : World}
    (H : VrsConfig.WriteAndCommit yaml config dir true push msg w = (Except.ok (), w')) :
    w'.fs = fsSet w.fs (pathJoin dir VrsConfigFileName) (yaml.marshal config) ∧
    w'.log = w.log ++ commitSeqEvents dir msg ("v" ++ config.version) (yaml.marshal config) push := by
  simp only [VrsConfig.WriteAndCommit, VrsConfig.Write, writeFile, if_true] at H
  split at H
  · simp at H
  · rename_i w2 heq2
    split at H
    · simp at H
    · rename_i w3 heq3
      split at H
      · simp at H
      · rename_i w4 heq4
        split at H
        · -- push
          rename_i hpush
          split at H
          · simp at H
          · rename_i w5 heq5
            split at H
            · simp at H
            · rename_i w6 heq6
              injection H with h1 h2
              subst h2
              obtain ⟨f2, l2⟩ := runGit_spec heq2
              obtain ⟨f3, l3⟩ := runGit_spec heq3
              obtain ⟨f4, l4⟩ := runGit_spec heq4
              obtain ⟨f5, l5⟩ := runGit_spec heq5
              obtain ⟨f6, l6⟩ := runGit_spec heq6
              constructor
              · rw [f6, f5, f4, f3, f2]
              · rw [l6, l5, l4, l3, l2]
                simp [commitSeqEvents, hpush]
        · -- no push
          rename_i hpush
          injection H with h1 h2
          subst h2
          obtain ⟨f2, l2⟩ := runGit_spec heq2
          obtain ⟨f3, l3⟩ := runGit_spec heq3
          obtain ⟨f4, l4⟩ := runGit_spec heq4
          constructor
          · rw [f4, f3, f2]
          · rw [l4, l3, l2]
            simp [commitSeqEvents, hpush]

theorem WriteAndCommit_ok_writes {yaml : Yaml} {config : VrsConfig} {dir : String}
    {commit push : Bool} {msg : String} {w w' : World}
    (H : VrsConfig.WriteAndCommit yaml config dir commit push msg w = (Except.ok (), w')) :
    w'.fs = fsSet w.fs (pathJoin dir VrsConfigFileName) (yaml.marshal config) ∧
    ∃ tail, w'.log =
        w.log ++ Event.write (pathJoin dir VrsConfigFileName) (yaml.marshal config) :: tail ∧
      writePaths tail = [] := by
  cases commit
  · simp only [VrsConfig.WriteAndCommit, VrsConfig.Write, writeFile, Bool.false_eq_true,
      if_false] at H
    injection H with h1 h2
    subst h2
    exact ⟨rfl, [], by simp, rfl⟩
  · obtain ⟨hfs, hlog⟩ := WriteAndCommit_ok_spec H
    refine ⟨hfs, (commitSeqEvents dir msg ("v" ++ config.version) (yaml.marshal config) push).tail,
      ?_, ?_⟩
    · rw [hlog]
      cases push <;> rfl
    · cases push <;> rfl

theorem WriteAndCommit_empty_oracle {yaml : Yaml} {config : VrsConfig} {dir : String}
    {push : Bool} {msg : String} {w : World} (h : w.gitOutcomes = []) :
    VrsConfig.WriteAndCommit yaml config dir true push msg w =
      (Except.ok (),
        { fs := fsSet w.fs (pathJoin dir VrsConfigFileName) (yaml.marshal config),
          log := w.log ++ commitSeqEvents dir msg ("v" ++ config.version) (yaml.marshal config) push,
          gitOutcomes := [] }) := by
  cases push <;>
    simp [VrsConfig.WriteAndCommit, VrsConfig.Write, writeFile, runGit, h, commitSeqEvents]

/-! ## Shape of a successful sync step -/

theorem bumpInFile_ok_spec {R : Type} {eng : RegexpEngine R} {baseDir : String} {commit : Bool}
    {file oldV pat newV : String} {w w' : World}
    (H : bumpInFile eng baseDir commit file oldV pat newV w = (Except.ok (), w')) :
    ∃ c, w'.log = w.log ++ syncFileEvents baseDir file c commit := by
  simp only [bumpInFile] at H
  split at H
  · simp at H
  · rename_i content heqread
    split at H
    · simp at H
    · rename_i bumpedFile heqb
      cases commit
      · simp only [Bool.false_eq_true, if_false, writeFile] at H
        injection H with h1 h2
        subst h2
        exact ⟨bumpedFile, by simp [syncFileEvents]⟩
      · simp only [if_true, writeFile] at H
        split at H
        · simp at H
        · rename_i w2 heq2
          split at H
          · simp at H
          · rename_i w3 heq3
            injection H with h1 h2
            subst h2
            obtain ⟨f2, l2⟩ := runGit_spec heq2
            obtain ⟨f3, l3⟩ := runGit_spec heq3
            refine ⟨bumpedFile, ?_⟩
            rw [l3, l2]
            simp [syncFileEvents]

theorem syncFiles_ok_spec {R : Type} {eng : RegexpEngine R} {dir : String} {commit : Bool}
    {oldV newV : String} :
    ∀ (files : List SyncFile) (w w' : World),
      syncFiles eng dir commit oldV newV files w = (Except.ok (), w') →
      ∃ ps : List (String × String), ps.map Prod.fst = files.map SyncFile.name ∧
        w'.log = w.log ++ (ps.map (fun pc => syncFileEvents dir pc.1 pc.2 commit)).flatten := by
  intro files
  induction files with
  | nil =>
    intro w w' H
    simp only [syncFiles] at H
    injection H with h1 h2
    subst h2
    exact ⟨[], rfl, by simp⟩
  | cons f fs ih =>
    intro w w' H
    simp only [syncFiles] at H
    split at H
    · simp at H
    · rename_i u w1 heq
      obtain rfl : u = () := rfl
      have hstep : ∃ c, w1.log = w.log ++ syncFileEvents dir f.name c commit := by
        by_cases hp : f.pattern = ""
        · rw [if_pos hp] at heq
          exact bumpInFile_ok_spec heq
        · rw [if_neg hp] at heq
          exact bumpInFile_ok_spec heq
      obtain ⟨c, hlog1⟩ := hstep
      obtain ⟨ps, hmap, hlog2⟩ := ih w1 w' H
      refine ⟨(f.name, c) :: ps, by simp [hmap], ?_⟩
      rw [hlog2, hlog1]
      simp

theorem profilesLoop_ok_spec {R : Type} {eng : RegexpEngine R} {dir : String} {commit : Bool}
    {active : List String} {oldV newV : String} :
    ∀ (profs : List Profile) (w w' : World),
      profilesLoop eng dir commit active oldV newV profs w = (Except.ok (), w') →
      ∃ ps : List (String × String),
        ps.map Prod.fst =
          ((profs.filter (fun p => active.contains p.name)).flatMap profileFiles).map
            SyncFile.name ∧
        w'.log = w.log ++ (ps.map (fun pc => syncFileEvents dir pc.1 pc.2 commit)).flatten := by
  intro profs
  induction profs with
  | nil =>
    intro w w' H
    simp only [profilesLoop] at H
    injection H with h1 h2
    subst h2
    exact ⟨[], rfl, by simp⟩
  | cons p ps ih =>
    intro w w' H
    simp only [profilesLoop] at H
    by_cases hact : active.contains p.name = true
    · have hmem : p.name ∈ active := by simpa using hact
      rw [if_pos hact] at H
      split at H
      · -- p.sync = some s
        rename_i s hsync
        split at H
        · simp at H
        · rename_i u w1 heq
          obtain rfl : u = () := rfl
          obtain ⟨qs1, hmap1, hlog1⟩ := syncFiles_ok_spec s.files w w1 heq
          obtain ⟨qs2, hmap2, hlog2⟩ := ih w1 w' H
          refine ⟨qs1 ++ qs2, ?_, ?_⟩
          · simp [hmap1, hmap2, hmem, List.filter_cons, profileFiles, hsync]
          · rw [hlog2, hlog1]
            simp
      · -- p.sync = none
        rename_i hsync
        obtain ⟨qs, hmap, hlog⟩ := ih w w' H
        refine ⟨qs, ?_, hlog⟩
        simp [hmap, hmem, List.filter_cons, profileFiles, hsync]
    · have hmem : p.name ∉ active := by simpa using hact
      rw [if_neg hact] at H
      obtain ⟨qs, hmap, hlog⟩ := ih w w' H
      refine ⟨qs, ?_, hlog⟩
      simp [hmap, hmem, List.filter_cons]

/-! ## Shape of a successful bump -/

theorem Bump_ok_spec {R : Type} {yaml : Yaml} {eng : RegexpEngine R} {opts : BumpOptions}
    {w w' : World} (H : Bump yaml eng opts w = (Outcome.ok, w')) :
    ∃ (cfg : VrsConfig) (newV : String) (ps : List (String × String)),
      ParseVersioonConfig yaml opts.basedir w = Except.ok cfg ∧
      computeNewVersion cfg.version = VersionResult.ok newV ∧
      ps.map Prod.fst = (specSyncOrder cfg opts.activeProfiles).map SyncFile.name ∧
      w'.log = w.log ++
        (if opts.gitCommit then
           commitSeqEvents opts.basedir "Version bump." ("v" ++ newV)
             (yaml.marshal { cfg with version := newV }) opts.gitPush
         else
           [Event.write (pathJoin opts.basedir VrsConfigFileName)
             (yaml.marshal { cfg with version := newV })]) ++
        (ps.map (fun pc => syncFileEvents opts.basedir pc.1 pc.2 opts.gitCommit)).flatten := by
  simp only [Bump] at H
  rcases hP : ParseVersioonConfig yaml opts.basedir w with e | config
  · rw [hP] at H
    simp at H
  rw [hP] at H
  simp only [] at H
  rcases hV : computeNewVersion config.version with newVersion | - | -
  rotate_left
  · rw [hV] at H
    simp at H
  · rw [hV] at H
    simp at H
  rw [hV] at H
  simp only [] at H
  rcases hW : VrsConfig.WriteAndCommit yaml { config with version := newVersion } opts.basedir
      opts.gitCommit opts.gitPush "Version bump." w with ⟨r1, w1⟩
  rw [hW] at H
  rcases r1 with e1 | u1
  · simp at H
  obtain rfl : u1 = () := rfl
  simp only [] at H
  rcases hG : (match config.sync with
    | some s =>
      syncFiles eng opts.basedir opts.gitCommit config.version
        ({ config with version := newVersion } : VrsConfig).version s.files w1
    | none => (Except.ok (), w1)) with ⟨r2, w2⟩
  rw [hG] at H
  rcases r2 with e2 | u2
  · simp at H
  obtain rfl : u2 = () := rfl
  simp only [] at H
  rcases hL : profilesLoop eng opts.basedir opts.gitCommit opts.activeProfiles config.version
      ({ config with version := newVersion } : VrsConfig).version config.profiles w2 with ⟨r3, w3⟩
  rw [hL] at H
  rcases r3 with e3 | u3
  · simp at H
  obtain rfl : u3 = () := rfl
  simp only [] at H
  injection H with h1 h2
  subst h2
  -- global sync block
  have hglobal : ∃ qs1 : List (String × String),
      qs1.map Prod.fst = (globalFiles config).map SyncFile.name ∧
      w2.log = w1.log ++
        (qs1.map (fun pc => syncFileEvents opts.basedir pc.1 pc.2 opts.gitCommit)).flatten := by
    revert hG
    cases hsync : config.sync with
    | some s =>
      intro hG
      obtain ⟨qs1, hm, hl⟩ := syncFiles_ok_spec s.files w1 w2 hG
      exact ⟨qs1, by simp [globalFiles, hsync, hm], hl⟩
    | none =>
      intro hG
      injection hG with g1 g2
      subst g2
      exact ⟨[], by simp [globalFiles, hsync], by simp⟩
  obtain ⟨qs1, hmap1, hlog1⟩ := hglobal
  obtain ⟨qs2, hmap2, hlog2⟩ := profilesLoop_ok_spec config.profiles w2 w3 hL
  -- config write-and-commit block
  have hcfg : w1.log = w.log ++
      (if opts.gitCommit then
         commitSeqEvents opts.basedir "Version bump." ("v" ++ newVersion)
           (yaml.marshal { config with version := newVersion }) opts.gitPush
       else
         [Event.write (pathJoin opts.basedir VrsConfigFileName)
           (yaml.marshal { config with version := newVersion })]) := by
    cases hcommit : opts.gitCommit
    · rw [hcommit] at hW
      simp only [VrsConfig.WriteAndCommit, VrsConfig.Write, writeFile, Bool.false_eq_true,
        if_false] at hW
      injection hW with g1 g2
      subst g2
      simp
    · rw [hcommit] at hW
      obtain ⟨hf, hl⟩ := WriteAndCommit_ok_spec hW
      simpa using hl
  refine ⟨config, newVersion, qs1 ++ qs2, rfl, hV, ?_, ?_⟩
  · simp [specSyncOrder, hmap1, hmap2]
  · rw [hlog2, hlog1, hcfg]
    simp

/-! ## Lemmas about literal replacement -/

theorem occSplitAux_ne_nil (old : List Char) : ∀ (fuel : Nat) (s : List Char),
    occSplitAux old fuel s ≠ [] := by
  intro fuel
  induction fuel with
  | zero => intro s; simp [occSplitAux]
  | succ f ih =>
    intro s
    cases s with
    | nil => simp [occSplitAux]
    | cons c cs =>
      simp only [occSplitAux]
      split
      · simp
      · split
        · simp
        · simp

theorem joinWith_cons (sep x : List Char) (xs : List (List Char)) (h : xs ≠ []) :
    joinWith sep (x :: xs) = x ++ sep ++ joinWith sep xs := by
  cases xs with
  | nil => exact absurd rfl h
  | cons y ys => rfl

theorem joinWith_cons_head (sep : List Char) (c : Char) (h : List Char)
    (t : List (List Char)) :
    joinWith sep ((c :: h) :: t) = c :: joinWith sep (h :: t) := by
  cases t with
  | nil => rfl
  | cons y ys => simp [joinWith]

theorem replaceAllAux_eq_joinWith (new old : List Char) : ∀ (fuel : Nat) (s : List Char),
    replaceAllAux new old fuel s = joinWith new (occSplitAux old fuel s) := by
  intro fuel
  induction fuel with
  | zero => intro s; rfl
  | succ f ih =>
    intro s
    cases s with
    | nil => rfl
    | cons c cs =>
      simp only [replaceAllAux, occSplitAux]
      by_cases hmatch : leadsWith old (c :: cs) = true
      · rw [if_pos hmatch, if_pos hmatch,
          joinWith_cons new [] (occSplitAux old f ((c :: cs).drop old.length))
            (occSplitAux_ne_nil old f _), ih]
        simp
      · rw [if_neg hmatch, if_neg hmatch]
        rcases hocc : occSplitAux old f cs with - | ⟨h1, t1⟩
        · exact absurd hocc (occSplitAux_ne_nil old f cs)
        · rw [joinWith_cons_head, ← hocc, ih]

theorem replaceAllAux_no_occ (new old : List Char) : ∀ (fuel : Nat) (s : List Char),
    containsSub old s = false → replaceAllAux new old fuel s = s := by
  intro fuel
  induction fuel with
  | zero => intro s _; rfl
  | succ f ih =>
    intro s hc
    cases s with
    | nil => rfl
    | cons c cs =>
      simp only [containsSub, Bool.or_eq_false_iff] at hc
      simp only [replaceAllAux, hc.1, if_false, Bool.false_eq_true]
      rw [ih cs hc.2]

/-! ## Lemmas about `goAtoi` and 64-bit wrap -/

theorem atoiCore_range {neg : Bool} {cs : List Char} {v : Int}
    (H : atoiCore neg cs = Except.ok v) : -(2 ^ 63) ≤ v ∧ v ≤ 2 ^ 63 - 1 := by
  simp only [atoiCore] at H
  split at H
  · simp at H
  · split at H <;>
    · split at H
      · rename_i hrange
        injection H with h1
        subst h1
        exact hrange
      · simp at H

theorem goAtoi_range {s : String} {v : Int} (H : goAtoi s = Except.ok v) :
    -(2 ^ 63) ≤ v ∧ v ≤ 2 ^ 63 - 1 := by
  simp only [goAtoi] at H
  split at H
  · simp at H
  · split at H
    · exact atoiCore_range H
    · split at H
      · exact atoiCore_range H
      · exact atoiCore_range H

theorem int64wrap_of_range {n : Int} (h1 : -(2 ^ 63) ≤ n) (h2 : n < 2 ^ 63) :
    int64wrap n = n := by
  unfold int64wrap
  rw [Int.emod_eq_of_lt (by omega) (by omega)]
  omega

theorem WriteAndCommit_fs (yaml : Yaml) (config : VrsConfig) (dir : String)
    (commit push : Bool) (msg : String) (w : World) :
    (VrsConfig.WriteAndCommit yaml config dir commit push msg w).2.fs =
      fsSet w.fs (pathJoin dir VrsConfigFileName) (yaml.marshal config) := by
  simp only [VrsConfig.WriteAndCommit, VrsConfig.Write, writeFile]
  cases commit
  · simp
  · simp only [if_true]
    split
    · rename_i w2 heq2
      rw [(runGit_spec heq2).1]
    · rename_i w2 heq2
      split
      · rename_i w3 heq3
        rw [(runGit_spec heq3).1, (runGit_spec heq2).1]
      · rename_i w3 heq3
        split
        · rename_i w4 heq4
          rw [(runGit_spec heq4).1, (runGit_spec heq3).1, (runGit_spec heq2).1]
        · rename_i w4 heq4
          split
          · split
            · rename_i w5 heq5
              rw [(runGit_spec heq5).1, (runGit_spec heq4).1, (runGit_spec heq3).1,
                (runGit_spec heq2).1]
            · rename_i w5 heq5
              split
              · rename_i w6 heq6
                rw [(runGit_spec heq6).1, (runGit_spec heq5).1, (runGit_spec heq4).1,
                  (runGit_spec heq3).1, (runGit_spec heq2).1]
              · rename_i w6 heq6
                rw [(runGit_spec heq6).1, (runGit_spec heq5).1, (runGit_spec heq4).1,
                  (runGit_spec heq3).1, (runGit_spec heq2).1]
          · rw [(runGit_spec heq4).1, (runGit_spec heq3).1, (runGit_spec heq2).1]

/-! ## The claims -/

/-- C1 (amended): for every version string splitting into exactly three
dot-separated parts whose second part parses as a 64-bit integer `v` other
than the maximal one (`2^63 - 1`), the bump computation yields
`X.(v+1).Z`, carrying the first and third parts through unchanged as
literal strings.  (At `v = 2^63 - 1` the Go `int` increment wraps; see the
counterexample.) -/
theorem bump_version_midpart_increment (s x y z : String) (v : Int)
    (hsplit : goSplit s = [x, y, z]) (hy : goAtoi y = Except.ok v)
    (hmax : v ≠ 2 ^ 63 - 1) :
    computeNewVersion s = VersionResult.ok (x ++ "." ++ goItoa (v + 1) ++ "." ++ z) := by
  obtain ⟨hlo, hhi⟩ := goAtoi_range hy
  have hwrap : int64wrap (v + 1) = v + 1 := by
    apply int64wrap_of_range
    · omega
    · omega
  simp [computeNewVersion, hsplit, hy, hwrap]

/-- Witness for C1 at the concrete version "1.4.0" (which bumps to
"1.5.0"). -/
theorem bump_version_midpart_increment_witness :
    computeNewVersion "1.4.0" =
      VersionResult.ok ("1" ++ "." ++ goItoa (4 + 1) ++ "." ++ "0") :=
  bump_version_midpart_increment "1.4.0" "1" "4" "0" 4 (by decide) (by decide) (by decide)

/-- Counterexample to C1 as frozen: the second part
`9223372036854775807` parses as an integer, yet the bumped version is
`"1.-9223372036854775808.0"`, not `"1.9223372036854775808.0"` — the Go
`int` increment wraps around. -/
theorem bump_version_overflow_counterexample :
    goAtoi "9223372036854775807" = Except.ok (2 ^ 63 - 1) ∧
    computeNewVersion "1.9223372036854775807.0" =
      VersionResult.ok "1.-9223372036854775808.0" ∧
    VersionResult.ok "1.-9223372036854775808.0" ≠
      VersionResult.ok ("1" ++ "." ++ "9223372036854775808" ++ "." ++ "0") := by
  refine ⟨by decide, by decide, by decide⟩

/-- Options used by several concrete runs. -/
def bOpts : BumpOptions :=
  { basedir := "b", gitCommit := true, gitPush := true, activeProfiles := [] }

/-- A world whose config file holds the dot-less version "1". -/
def worldOneDot : World :=
  { fs := [("b/vrs.yml", "1")], log := [], gitOutcomes := [] }

/-- A world whose config file holds the version "1.x.0" (non-integer
second component). -/
def worldNonInt : World :=
  { fs := [("b/vrs.yml", "1.x.0")], log := [], gitOutcomes := [] }

/-- C3 (amended): when the loaded config's version has at least two
dot-separated parts and the second part is not an integer, `Bump` returns
the `Atoi` parse error to the caller with the world untouched; but when
the version has fewer than two dot-separated parts, `Bump` does not return
an error — it crashes with an index-out-of-range panic
(`versionParts[1]` at `vrs.go:190` is unguarded). -/
theorem bump_malformed_version_behavior (R : Type) (yaml : Yaml) (eng : RegexpEngine R)
    (opts : BumpOptions) (w : World) (cfg : VrsConfig)
    (hparse : ParseVersioonConfig yaml opts.basedir w = Except.ok cfg) :
    ((goSplit cfg.version).length ≤ 1 →
      Bump yaml eng opts w = (Outcome.crashed "index out of range", w)) ∧
    (∀ h : 1 < (goSplit cfg.version).length,
      goAtoi ((goSplit cfg.version).get ⟨1, h⟩) = Except.error () →
      Bump yaml eng opts w = (Outcome.err VrsError.atoiError, w)) := by
  constructor
  · intro hlen
    have hv : computeNewVersion cfg.version = VersionResult.indexPanic := by
      simp only [computeNewVersion]
      rw [dif_neg (by omega)]
    simp [Bump, hparse, hv]
  · intro h hatoi
    have hv : computeNewVersion cfg.version = VersionResult.parseFail := by
      simp only [computeNewVersion]
      rw [dif_pos h, hatoi]
    simp [Bump, hparse, hv]

/-- Witness for C3 (amended), instantiated at the dot-less version "1". -/
theorem bump_malformed_version_behavior_witness :
    ((goSplit "1").length ≤ 1 →
      Bump simpleYaml litEngine bOpts worldOneDot =
        (Outcome.crashed "index out of range", worldOneDot)) ∧
    (∀ h : 1 < (goSplit "1").length,
      goAtoi ((goSplit "1").get ⟨1, h⟩) = Except.error () →
      Bump simpleYaml litEngine bOpts worldOneDot =
        (Outcome.err VrsError.atoiError, worldOneDot)) :=
  bump_malformed_version_behavior String simpleYaml litEngine bOpts worldOneDot
    { version := "1", sync := none, profiles := [] } rfl

/-- Counterexample to C3 as frozen: for the loaded config whose version
"1" has fewer than two dot-separated parts, `Bump` does not return an
error — it panics (index out of range). -/
theorem bump_short_version_panic_counterexample :
    ParseVersioonConfig simpleYaml "b" worldOneDot =
      Except.ok { version := "1", sync := none, profiles := [] } ∧
    (goSplit "1").length = 1 ∧
    Bump simpleYaml litEngine bOpts worldOneDot =
      (Outcome.crashed "index out of range", worldOneDot) := by
  refine ⟨by decide, by decide, by decide⟩

/-- C6: a config whose version has a non-integer second dot-separated
component makes `Bump` fail with the parse error before any mutation: the
returned world is the input world, so the on-disk config, all sync
targets, and the version-control state are untouched. -/
theorem bump_parse_error_no_mutation (R : Type) (yaml : Yaml) (eng : RegexpEngine R)
    (opts : BumpOptions) (w : World) (cfg : VrsConfig)
    (hparse : ParseVersioonConfig yaml opts.basedir w = Except.ok cfg)
    (hlen : 1 < (goSplit cfg.version).length)
    (hatoi : goAtoi ((goSplit cfg.version).get ⟨1, hlen⟩) = Except.error ()) :
    Bump yaml eng opts w = (Outcome.err VrsError.atoiError, w) := by
  have hv : computeNewVersion cfg.version = VersionResult.parseFail := by
    simp only [computeNewVersion]
    rw [dif_pos hlen, hatoi]
  simp [Bump, hparse, hv]

/-- Witness for C6 at the concrete version "1.x.0". -/
theorem bump_parse_error_no_mutation_witness :
    Bump simpleYaml litEngine bOpts worldNonInt =
      (Outcome.err VrsError.atoiError, worldNonInt) :=
  bump_parse_error_no_mutation String simpleYaml litEngine bOpts worldNonInt
    { version := "1.x.0", sync := none, profiles := [] } rfl (by decide) (by decide)

/-- Options/world used by the C7 witness. -/
def rOpts : ReadCurrentOptions := { basedir := "b", gitCommit := true, gitPush := true }

/-- A world with no files at all. -/
def emptyWorld : World := { fs := [], log := [], gitOutcomes := [] }

/-- C7: `ParseVersioonConfig` — and hence `ReadCurrentVersion` — fails
with the distinguished `NoVersioonFileFound` sentinel exactly when
`vrs.yml` is absent from the base directory; when the file is present the
result is never that sentinel (it is a success or a distinct
unmarshal-error value), so callers can branch on it. -/
theorem notFound_iff_config_absent (yaml : Yaml) (ro : ReadCurrentOptions) (w : World) :
    (ParseVersioonConfig yaml ro.basedir w = Except.error VrsError.noVersioonFileFound ↔
      readFile w (pathJoin ro.basedir VrsConfigFileName) = none) ∧
    (ReadCurrentVersion yaml ro w = Except.error VrsError.noVersioonFileFound ↔
      readFile w (pathJoin ro.basedir VrsConfigFileName) = none) := by
  rcases h : readFile w (pathJoin ro.basedir VrsConfigFileName) with - | yml
  · simp [ParseVersioonConfig, ReadCurrentVersion, h]
  · rcases hu : yaml.unmarshal yml with m | c <;>
      simp [ParseVersioonConfig, ReadCurrentVersion, h, hu]

/-- Witness for C7 at a concrete empty world. -/
theorem notFound_iff_config_absent_witness :
    (ParseVersioonConfig simpleYaml rOpts.basedir emptyWorld =
        Except.error VrsError.noVersioonFileFound ↔
      readFile emptyWorld (pathJoin rOpts.basedir VrsConfigFileName) = none) ∧
    (ReadCurrentVersion simpleYaml rOpts emptyWorld =
        Except.error VrsError.noVersioonFileFound ↔
      readFile emptyWorld (pathJoin rOpts.basedir VrsConfigFileName) = none) :=
  notFound_iff_config_absent simpleYaml rOpts emptyWorld

/-- C5: literal-mode rewrite equals splitting the content at every
leftmost non-overlapping occurrence of the old version and re-joining the
untouched pieces with the new version (so exactly the occurrences change
and all other content is carried through byte-identically); in particular,
when the old version does not occur, the content is returned unchanged (a
silent no-op). -/
theorem literal_mode_replace (s old new : String) (h : old ≠ "") :
    goReplaceAll s old new =
      String.mk (joinWith new.data (occSplitAux old.data s.data.length s.data)) ∧
    (containsSub old.data s.data = false → goReplaceAll s old new = s) := by
  have hd : old.data ≠ [] := by
    intro hnil
    apply h
    cases old with
    | mk d =>
      simp only at hnil
      rw [hnil]
  constructor
  · simp only [goReplaceAll, if_neg hd]
    rw [replaceAllAux_eq_joinWith]
  · intro hc
    simp only [goReplaceAll, if_neg hd]
    rw [replaceAllAux_no_occ new.data old.data s.data.length s.data hc]

/-- Witness for C5 at a content containing "1.2.3" twice. -/
theorem literal_mode_replace_witness :
    goReplaceAll "v 1.2.3 and 1.2.3" "1.2.3" "1.3.3" =
      String.mk (joinWith ("1.3.3" : String).data
        (occSplitAux ("1.2.3" : String).data ("v 1.2.3 and 1.2.3" : String).data.length
          ("v 1.2.3 and 1.2.3" : String).data)) ∧
    (containsSub ("1.2.3" : String).data ("v 1.2.3 and 1.2.3" : String).data = false →
      goReplaceAll "v 1.2.3 and 1.2.3" "1.2.3" "1.3.3" = "v 1.2.3 and 1.2.3") :=
  literal_mode_replace "v 1.2.3 and 1.2.3" "1.2.3" "1.3.3" (by decide)

/-- A world holding one sync target, used by the C4 and C10 witnesses. -/
def fileWorld : World :=
  { fs := [("d/f.txt", "version: 1.2.3")], log := [], gitOutcomes := [] }

/-- C4: in pattern mode (`bumpInFile` called with an empty literal and the
sync file's pattern, as `Bump` does when the pattern is non-empty), the
pattern is handed to the regexp engine's `Compile`: if compilation fails
the rewrite fails with the invalid-pattern error and the world is
unchanged; if it succeeds, the target file afterwards holds exactly the
engine's `ReplaceAllString` of its previous content with the new version
as the replacement (every match replaced, whatever the git mode and
outcome). -/
theorem pattern_mode_rewrite {R : Type} (eng : RegexpEngine R) (baseDir : String)
    (gitCommit : Bool) (file pat newV : String) (w : World) (content : String)
    (hread : readFile w (pathJoin baseDir file) = some content) :
    (∀ e, eng.compile pat = Except.error e →
      bumpInFile eng baseDir gitCommit file "" pat newV w =
        (Except.error VrsError.regexpCompileError, w)) ∧
    (∀ r, eng.compile pat = Except.ok r →
      readFile (bumpInFile eng baseDir gitCommit file "" pat newV w).2
          (pathJoin baseDir file) =
        some (eng.replaceAllString r content newV)) := by
  have hread' : fsGet w.fs (pathJoin baseDir file) = some content := hread
  constructor
  · intro e hc
    simp [bumpInFile, readFile, hread', hc]
  · intro r hc
    simp only [bumpInFile, readFile, hread', hc]
    rw [if_neg (by simp)]
    simp only []
    cases gitCommit
    · simp [readFile, writeFile, fsGet_fsSet_self]
    · simp only [if_true]
      split
      · rename_i w2 heq2
        obtain ⟨hf2, -⟩ := runGit_spec heq2
        simp [readFile, hf2, writeFile, fsGet_fsSet_self]
      · rename_i w2 heq2
        obtain ⟨hf2, -⟩ := runGit_spec heq2
        split
        · rename_i w3 heq3
          obtain ⟨hf3, -⟩ := runGit_spec heq3
          simp [readFile, hf3, hf2, writeFile, fsGet_fsSet_self]
        · rename_i w3 heq3
          obtain ⟨hf3, -⟩ := runGit_spec heq3
          simp [readFile, hf3, hf2, writeFile, fsGet_fsSet_self]

/-- Witness for C4: the engine compiles the pattern "1.2.3" and the file
content becomes its replacement image. -/
theorem pattern_mode_rewrite_witness :
    (∀ e, litEngine.compile "1.2.3" = Except.error e →
      bumpInFile litEngine "d" false "f.txt" "" "1.2.3" "1.3.3" fileWorld =
        (Except.error VrsError.regexpCompileError, fileWorld)) ∧
    (∀ r, litEngine.compile "1.2.3" = Except.ok r →
      readFile (bumpInFile litEngine "d" false "f.txt" "" "1.2.3" "1.3.3" fileWorld).2
          (pathJoin "d" "f.txt") =
        some (litEngine.replaceAllString r "version: 1.2.3" "1.3.3")) :=
  pattern_mode_rewrite litEngine "d" false "f.txt" "1.2.3" "1.3.3" fileWorld
    "version: 1.2.3" rfl

/-- C10: when the pattern fails to compile, `bumpInFile` errors after the
read and before any write: the returned world is the input world, so the
target file is unchanged and no version-control command was run. -/
theorem pattern_compile_failure_no_effect {R : Type} (eng : RegexpEngine R) (baseDir : String)
    (gitCommit : Bool) (file pat newV : String) (w : World) (content : String) (e : String)
    (hread : readFile w (pathJoin baseDir file) = some content)
    (hc : eng.compile pat = Except.error e) :
    bumpInFile eng baseDir gitCommit file "" pat newV w =
      (Except.error VrsError.regexpCompileError, w) := by
  have hread' : fsGet w.fs (pathJoin baseDir file) = some content := hread
  simp [bumpInFile, readFile, hread', hc]

/-- Witness for C10 with the ill-formed pattern "(". -/
theorem pattern_compile_failure_no_effect_witness :
    bumpInFile litEngine "d" true "f.txt" "" "(" "9.9.9" fileWorld =
      (Except.error VrsError.regexpCompileError, fileWorld) :=
  pattern_compile_failure_no_effect litEngine "d" true "f.txt" "(" "9.9.9" fileWorld
    "version: 1.2.3" "missing closing )" rfl rfl

/-- C2: in every bump run with commit mode enabled that runs to
completion, the event log extends by: first the config write, its staging,
the commit with message "Version bump.", and the tag `v<newVersion>`
(then the pushes, in push mode) — and only after all of that the
per-sync-file blocks, each consisting of that one file's write, its
staging, and its own separate commit with message "Bumped version.".  So
every sync-target rewrite and commit happens strictly after the tag was
created, and the tagged commit cannot include the synced-file changes. -/
theorem bump_commit_ordering {R : Type} (yaml : Yaml) (eng : RegexpEngine R)
    (opts : BumpOptions) (w w' : World) (hc : opts.gitCommit = true)
    (H : Bump yaml eng opts w = (Outcome.ok, w')) :
    ∃ (cfg : VrsConfig) (newV : String) (ps : List (String × String)),
      ParseVersioonConfig yaml opts.basedir w = Except.ok cfg ∧
      computeNewVersion cfg.version = VersionResult.ok newV ∧
      w'.log = w.log ++
        commitSeqEvents opts.basedir "Version bump." ("v" ++ newV)
          (yaml.marshal { cfg with version := newV }) opts.gitPush ++
        (ps.map (fun pc => syncFileEvents opts.basedir pc.1 pc.2 true)).flatten := by
  obtain ⟨cfg, newV, ps, h1, h2, h3, h4⟩ := Bump_ok_spec H
  refine ⟨cfg, newV, ps, h1, h2, ?_⟩
  rw [h4, hc]
  simp

/-- Concrete successful commit-mode run for the C2 witness. -/
def cWorld : World := { fs := [("p/vrs.yml", "0.1.0")], log := [], gitOutcomes := [] }

/-- Options of the C2 witness run. -/
def cOpts : BumpOptions :=
  { basedir := "p", gitCommit := true, gitPush := false, activeProfiles := [] }

/-- Witness for C2: a concrete commit-mode bump that succeeds. -/
theorem bump_commit_ordering_witness :
    ∃ (cfg : VrsConfig) (newV : String) (ps : List (String × String)),
      ParseVersioonConfig simpleYaml cOpts.basedir cWorld = Except.ok cfg ∧
      computeNewVersion cfg.version = VersionResult.ok newV ∧
      (Bump simpleYaml litEngine cOpts cWorld).2.log = cWorld.log ++
        commitSeqEvents cOpts.basedir "Version bump." ("v" ++ newV)
          (simpleYaml.marshal { cfg with version := newV }) cOpts.gitPush ++
        (ps.map (fun pc => syncFileEvents cOpts.basedir pc.1 pc.2 true)).flatten :=
  bump_commit_ordering simpleYaml litEngine cOpts cWorld
    (Bump simpleYaml litEngine cOpts cWorld).2 rfl rfl

/-- C8: on every bump that runs to completion, the file writes after the
config write are exactly — in order — the global sync files followed by,
for each profile in config order whose name occurs in the caller-supplied
active-profile list (applied at most once per profile entry, and applied
for every such profile, duplicates included), that profile's sync files:
the `specSyncOrder` of the loaded config. -/
theorem bump_sync_processing_order {R : Type} (yaml : Yaml) (eng : RegexpEngine R)
    (opts : BumpOptions) (w w' : World) (cfg : VrsConfig)
    (hparse : ParseVersioonConfig yaml opts.basedir w = Except.ok cfg)
    (H : Bump yaml eng opts w = (Outcome.ok, w')) :
    ∃ suffix, w'.log = w.log ++ suffix ∧
      writePaths suffix = pathJoin opts.basedir VrsConfigFileName ::
        (specSyncOrder cfg opts.activeProfiles).map (fun f => pathJoin opts.basedir f.name) := by
  obtain ⟨cfg2, newV, ps, h1, h2, h3, h4⟩ := Bump_ok_spec H
  rw [hparse] at h1
  injection h1 with hcc
  subst hcc
  refine ⟨_, by rw [h4, List.append_assoc], ?_⟩
  rw [writePaths_append, writePaths_blocks]
  have hW : writePaths
      (if opts.gitCommit then
         commitSeqEvents opts.basedir "Version bump." ("v" ++ newV)
           (yaml.marshal { cfg with version := newV }) opts.gitPush
       else
         [Event.write (pathJoin opts.basedir VrsConfigFileName)
           (yaml.marshal { cfg with version := newV })]) =
      [pathJoin opts.basedir VrsConfigFileName] := by
    cases opts.gitCommit <;> cases opts.gitPush <;> simp [commitSeqEvents, writePaths]
  rw [hW]
  have hmapped := congrArg (List.map (fun n => pathJoin opts.basedir n)) h3
  simp only [List.map_map] at hmapped
  simpa using hmapped

/-- World for the C8 witness: a config file plus all sync targets the
bump will touch (`p.txt`, the inactive profile's file, is absent and is
never read). -/
def sWorld : World :=
  { fs := [("p/vrs.yml", "x"), ("p/README.md", "v0.1.0"), ("p/a.txt", "0.1.0"),
           ("p/b.txt", "ver 0.1.0")],
    log := [], gitOutcomes := [] }

/-- Options for the C8 witness: the profile name "dev" is listed twice in
the active profiles, and two distinct profiles named "dev" exist in
`bigCfg`. -/
def sOpts : BumpOptions :=
  { basedir := "p", gitCommit := false, gitPush := false, activeProfiles := ["dev", "dev"] }

/-- Witness for C8: a run over `bigCfg` writes, in order, the config,
the global README.md, and the two "dev" profiles' files (but not the
inactive "prod" profile's file). -/
theorem bump_sync_processing_order_witness :
    ∃ suffix, (Bump fixedYaml litEngine sOpts sWorld).2.log = sWorld.log ++ suffix ∧
      writePaths suffix = pathJoin sOpts.basedir VrsConfigFileName ::
        (specSyncOrder bigCfg sOpts.activeProfiles).map
          (fun f => pathJoin sOpts.basedir f.name) :=
  bump_sync_processing_order fixedYaml litEngine sOpts sWorld
    (Bump fixedYaml litEngine sOpts sWorld).2 bigCfg rfl rfl

/-- The config `Init` writes (`vrs.go:148`). -/
def initConfig : VrsConfig := { version := "0.0.0", sync := none, profiles := [] }

/-- C9: `Init` unconditionally writes a config whose version is "0.0.0" —
for every starting world, existing config or not — so `ReadCurrentVersion`
on the resulting world returns "0.0.0" (assuming the YAML codec
round-trips the initial config); and in commit mode (with the git
commands succeeding) the change is committed with message
"Initialized versioon file." and tagged `v0.0.0`. -/
theorem init_resets_version (yaml : Yaml) (opts : InitOptions) (w : World)
    (hrt : yaml.unmarshal (yaml.marshal initConfig) = Except.ok initConfig) :
    readFile (Init yaml opts w).2 (pathJoin opts.basedir VrsConfigFileName) =
      some (yaml.marshal initConfig) ∧
    ReadCurrentVersion yaml
      { basedir := opts.basedir, gitCommit := opts.gitCommit, gitPush := opts.gitPush }
      (Init yaml opts w).2 = Except.ok "0.0.0" ∧
    (opts.gitCommit = true → w.gitOutcomes = [] →
      (Init yaml opts w).2.log = w.log ++
        commitSeqEvents opts.basedir "Initialized versioon file." "v0.0.0"
          (yaml.marshal initConfig) opts.gitPush) := by
  have hfs : readFile (Init yaml opts w).2 (pathJoin opts.basedir VrsConfigFileName) =
      some (yaml.marshal initConfig) := by
    simp only [Init, readFile]
    rw [WriteAndCommit_fs]
    exact fsGet_fsSet_self _ _ _
  refine ⟨hfs, ?_, ?_⟩
  · simp only [initConfig] at hrt
    simp [ReadCurrentVersion, ParseVersioonConfig, hfs, hrt, initConfig]
  · intro hcom hemp
    simp only [Init]
    rw [hcom, WriteAndCommit_empty_oracle hemp]
    rfl

/-- World for the C9 witness: a config with version "9.9.9" already
exists and is overwritten. -/
def iWorld : World := { fs := [("p/vrs.yml", "9.9.9")], log := [], gitOutcomes := [] }

/-- Options for the C9 witness. -/
def iOpts : InitOptions := { basedir := "p", gitCommit := true, gitPush := false }

/-- Witness for C9 with the concrete codec, over a world that already
holds a config. -/
theorem init_resets_version_witness :
    readFile (Init simpleYaml iOpts iWorld).2 (pathJoin iOpts.basedir VrsConfigFileName) =
      some (simpleYaml.marshal initConfig) ∧
    ReadCurrentVersion simpleYaml
      { basedir := iOpts.basedir, gitCommit := iOpts.gitCommit, gitPush := iOpts.gitPush }
      (Init simpleYaml iOpts iWorld).2 = Except.ok "0.0.0" ∧
    (iOpts.gitCommit = true → iWorld.gitOutcomes = [] →
      (Init simpleYaml iOpts iWorld).2.log = iWorld.log ++
        commitSeqEvents iOpts.basedir "Initialized versioon file." "v0.0.0"
          (simpleYaml.marshal initConfig) iOpts.gitPush) :=
  init_resets_version simpleYaml iOpts iWorld rfl
